import Mathlib

/-!
# Verification of the AS5048A encoder driver and the discrete-filter subsystem

Shallow embedding of the algorithmic core of the repository:

* `AS5048A.cpp` — SPI parity computation/validation (`spiCalcEvenParity`,
  `spiCheckParity`), the validation step of `AS5048A::read`, the
  multi-revolution angle unwrapper `AS5048A::getRotationUnwrapped`, and
  `setZeroPosition` / `getZeroPosition`.
* the Butterworth design header (`filter::butterworth`,
  `filter::expandPolynomial`, `filter::evaluateFrequencyResponse`, `filter::s2z`,
  `filter::complexAbs`, `filter::complexSqrt`).
* `discrete_filter.hpp` — `DiscreteFilter::filterData` and `DiscreteFilter::reset`.

Machine integers are embedded as `ℕ`/`ℤ` with explicit reductions modulo
`2^16` where the C++ code works on `uint16_t`/`int16_t`; `float`/`double`
arithmetic is idealized over `ℝ` (and `std::complex<double>` over `ℂ`).
-/

namespace AS5048A

/-- Modelled from the spec: `FULL_SCALE` is declared in the missing header
`AS5048A.hpp`; the spec fixes the raw range to `[0, 16384)` (14-bit scale). -/
def FULL_SCALE : ℕ := 16384

/-- Modelled from the spec: `HALF_SCALE` is declared in the missing header
`AS5048A.hpp`; the spec fixes the wraparound threshold to `8192` (half scale). -/
def HALF_SCALE : ℕ := 8192

/-- Number of set bits among the low `k` binary digits of `v`; embeds the
counting loop of `AS5048A::spiCalcEvenParity` (`if (value & 0x1) cnt++;
value >>= 1;`, iterated). -/
def bitCount : ℕ → ℕ → ℕ
  | 0, _ => 0
  | k + 1, v => v % 2 + bitCount k (v / 2)

/-- Embeds `AS5048A::spiCalcEvenParity`: population count of the 16-bit argument,
reduced modulo 2 (the C++ function returns `cnt & 0x1`).  The `% 65536`
models the `uint16_t` parameter type. -/
def spiCalcEvenParity (value : ℕ) : ℕ :=
  bitCount 16 (value % 65536) % 2

/-- Embeds `AS5048A::spiCheckParity`: extracts the parity bit (bit 15, via
`(value >> 15) & 0x01`), the low 15 data bits (`value & 0x7FFF`), recomputes
the data parity (`__builtin_parity`), and returns 1 when they agree, 0 on a
parity error. -/
def spiCheckParity (value : ℕ) : ℕ :=
  let v := value % 65536
  let parityBit := v / 32768 % 2
  let data := v % 32768
  let dataParity := bitCount 16 data % 2
  if parityBit = dataParity then 1 else 0

/-- The validation step of `AS5048A::read`: the value `errorFlag` holds after
a `read` whose second SPI transfer returned `response`.  Embeds the source
condition `response & (0x01 >> 14) || spiCheckParity(response) == 0`
verbatim (note the shift direction in the source: `0x01 >> 14`). -/
def readErrorFlag (response : ℕ) : Bool :=
  ((response % 65536) &&& (0x01 >>> 14) != 0) || (spiCheckParity response == 0)

/-- The value `AS5048A::read` returns: `response & ~0xC000`, stripping the
parity and error bits. -/
def readReturn (response : ℕ) : ℕ :=
  (response % 65536) &&& 0x3FFF

/-- The predicate the spec states for `errorFlag`: the received word failed
validation, i.e. its even-parity bit does not match the parity of its low
15 bits (`spiCheckParity = 0`) or its error-indicator bit (bit 14) is set. -/
def specResponseInvalid (response : ℕ) : Prop :=
  spiCheckParity response = 0 ∨ (response % 65536) / 16384 % 2 = 1

instance (response : ℕ) : Decidable (specResponseInvalid response) := by
  unfold specResponseInvalid; infer_instance

/-- Driver state relevant to the angle unwrapper (`AS5048A` members
`errorFlag`, `position`, `prevRaw`, `prevRawinitialized`, `revCount`). -/
structure EncoderState where
  errorFlag : Bool
  position : ℕ
  prevRaw : ℕ
  prevRawinitialized : Bool
  revCount : ℤ
  deriving Repr, DecidableEq

/-- Conversion of a mathematical integer to the value of the `int16_t` that
holds it (two's-complement wraparound), used for `int16_t delta = raw - prevRaw`. -/
def toInt16 (x : ℤ) : ℤ :=
  (x + 32768) % 65536 - 32768

/-- The fallback-substitution chain at the top of `AS5048A::getRotationUnwrapped`:
`uint16_t raw = getRawRotation();` (the `% 65536` models the `uint16_t` local),
then `if (errorFlag) raw = prevRaw;`, `if (raw == 0) raw = prevRaw;`,
`if (raw >= FULL_SCALE) raw = prevRaw;`. -/
def substRaw (prevRaw rawIn : ℕ) (err : Bool) : ℕ :=
  let raw0 := rawIn % 65536
  let raw1 := if err then prevRaw else raw0
  let raw2 := if raw1 = 0 then prevRaw else raw1
  if FULL_SCALE ≤ raw2 then prevRaw else raw2

/-- The wraparound detection of `AS5048A::getRotationUnwrapped`:
`if (delta > HALF_SCALE) --revCount; else if (delta < -HALF_SCALE) ++revCount;`. -/
def wrapAdjust (delta rev : ℤ) : ℤ :=
  if (HALF_SCALE : ℤ) < delta then rev - 1
  else if delta < -(HALF_SCALE : ℤ) then rev + 1 else rev

/-- The revolution count after one call of `AS5048A::getRotationUnwrapped`:
the first-ever sample first executes `prevRaw = raw; revCount = -1;`, then the
wraparound detection runs on `int16_t delta = raw - prevRaw`. -/
def stepRevCount (s : EncoderState) (rawIn : ℕ) (err : Bool) : ℤ :=
  wrapAdjust
    (toInt16 ((substRaw s.prevRaw rawIn err : ℤ) -
      ((if s.prevRawinitialized then s.prevRaw else substRaw s.prevRaw rawIn err : ℕ) : ℤ)))
    (if s.prevRawinitialized then s.revCount else -1)

/-- One call of `AS5048A::getRotationUnwrapped`, with the raw SPI reading and
the `errorFlag` produced by that reading supplied as inputs (`rawIn` is the
value `getRawRotation()` returned, `err` the flag the embedded `read` set).
Returns the updated driver state and the `int32_t` return value
`(revCount * FULL_SCALE + raw) - position - HALF_SCALE`. -/
def getRotationUnwrappedStep (s : EncoderState) (rawIn : ℕ) (err : Bool) :
    EncoderState × ℤ :=
  (⟨err, s.position, substRaw s.prevRaw rawIn err, true, stepRevCount s rawIn err⟩,
    stepRevCount s rawIn err * (FULL_SCALE : ℕ) + (substRaw s.prevRaw rawIn err : ℤ)
      - (s.position : ℤ) - (HALF_SCALE : ℕ))

/-- The unwrapped output value determined by a driver state: what the last
`getRotationUnwrapped` call returned, expressed through the state it left
behind (`revCount * FULL_SCALE + prevRaw - position - HALF_SCALE`). -/
def unwrappedOf (s : EncoderState) : ℤ :=
  s.revCount * (FULL_SCALE : ℕ) + (s.prevRaw : ℤ) - (s.position : ℤ) - (HALF_SCALE : ℕ)

/-- Embeds `AS5048A::setZeroPosition`: `this->position = position % 0x3FFF;`
(the `% 65536` models the `uint16_t` parameter type). -/
def setZeroPosition (s : EncoderState) (p : ℕ) : EncoderState :=
  { s with position := (p % 65536) % 0x3FFF }

/-- Embeds `AS5048A::getZeroPosition`: returns the stored `position` member. -/
def getZeroPosition (s : EncoderState) : ℕ :=
  s.position

end AS5048A

namespace filter

/-- Embeds `filter::FilterType` (`LOWPASS = 0b00`, `HIGHPASS = 0b01`, `BANDPASS = 0b10`,
`BANDSTOP = 0b11`). -/
inductive FilterType
  | LOWPASS
  | HIGHPASS
  | BANDPASS
  | BANDSTOP
  deriving Repr, DecidableEq

/-- The band bit of the enum value: `(type & 0b10) != 0`. -/
def FilterType.isBand : FilterType → Bool
  | .BANDPASS => true
  | .BANDSTOP => true
  | _ => false

/-- Embeds `filter::getNumCoefficients`: `(1 + ((type & 0b10) != 0)) * ORDER + 1`. -/
def getNumCoefficients (order : ℕ) (ty : FilterType) : ℕ :=
  (1 + if ty.isBand then 1 else 0) * order + 1

/-- Embeds `filter::s2z`: the bilinear transform
`(1 + (Ts/2)*s) / (1 - (Ts/2)*s)`. -/
noncomputable def s2z (s : ℂ) (Ts : ℝ) : ℂ :=
  (1 + ((Ts / 2 : ℝ) : ℂ) * s) / (1 - ((Ts / 2 : ℝ) : ℂ) * s)

/-- Embeds `filter::complexAbs`: `sqrt(re² + im²)`. -/
noncomputable def complexAbs (z : ℂ) : ℝ :=
  Real.sqrt (z.re * z.re + z.im * z.im)

/-- Embeds `filter::complexSqrt`: polar square root with
`r = sqrt(complexAbs z)`, `theta = atan2(im, re) * 0.5` (`Complex.arg` is the
`atan2(im, re)` angle). -/
noncomputable def complexSqrt (z : ℂ) : ℂ :=
  let r := Real.sqrt (complexAbs z)
  let theta := z.arg * (1 / 2)
  ⟨r * Real.cos theta, r * Real.sin theta⟩

/-- One step of `filter::expandPolynomial`: multiply the coefficient list
(index = degree, constant term first) by `(x - z)`.  Entry `j` of the result
is `cs[j-1] - z * cs[j]` with out-of-range entries read as 0, exactly the
shift-and-subtract loop of the source. -/
noncomputable def mulLin (cs : List ℂ) (z : ℂ) : List ℂ :=
  List.zipWith (fun a b => a - z * b) (0 :: cs) (cs ++ [0])

/-- Embeds `filter::expandPolynomial`: starting from the constant polynomial 1,
multiply in one degree-1 factor per zero. -/
noncomputable def expandPolynomial (zeros : List ℂ) : List ℂ :=
  zeros.foldl mulLin [1]

/-- The final real-part extraction of `filter::expandPolynomial`
(`stripped_coefficients[i] = coefficients[i].real()`). -/
noncomputable def stripReal (cs : List ℂ) : List ℝ :=
  cs.map Complex.re

/-- One side of `filter::evaluateFrequencyResponse`: `Σ c[k] * (cos(ωk) - j·sin(ωk))`
with `ω` in radians per sample. -/
noncomputable def respPoly (c : List ℝ) (omega : ℝ) : ℂ :=
  (c.enum.map (fun p => ((p.2 : ℝ) : ℂ) *
    (((Real.cos (omega * p.1) : ℝ) : ℂ) - Complex.I * ((Real.sin (omega * p.1) : ℝ) : ℂ)))).sum

/-- Embeds `filter::evaluateFrequencyResponse`: numerator over denominator evaluated
at `omega = w * Ts`. -/
noncomputable def evaluateFrequencyResponse (b a : List ℝ) (w Ts : ℝ) : ℂ :=
  respPoly b (w * Ts) / respPoly a (w * Ts)

/-- The N analog prototype poles `(cos θ_k, sin θ_k)` with
`θ_k = π(2k+1)/(2N) + π/2`. -/
noncomputable def prototypePoles (order : ℕ) : List ℂ :=
  (List.range order).map fun (k : ℕ) =>
    ⟨Real.cos (Real.pi * (2 * (k : ℝ) + 1) / (2 * (order : ℝ)) + Real.pi / 2),
     Real.sin (Real.pi * (2 * (k : ℝ) + 1) / (2 * (order : ℝ)) + Real.pi / 2)⟩

/-- The z-domain poles of `filter::butterworth` (the first `switch (Type)`),
given the pre-warped edges `wl`, `whp`. -/
noncomputable def butterworthZPoles (order : ℕ) (ty : FilterType) (wl whp Ts : ℝ) : List ℂ :=
  match ty with
  | .LOWPASS =>
    ((prototypePoles order).map (fun p => p * ((wl : ℝ) : ℂ))).map (fun s => s2z s Ts)
  | .HIGHPASS =>
    ((prototypePoles order).map (fun p => ((wl : ℝ) : ℂ) / p)).map (fun s => s2z s Ts)
  | .BANDPASS =>
    let B := whp - wl
    let W0sq := whp * wl
    (((prototypePoles order).map (fun p =>
      let root := complexSqrt ((p * (B : ℂ)) * (p * (B : ℂ)) - 4 * ((W0sq : ℝ) : ℂ))
      [(p * (B : ℂ) + root) * (1 / 2 : ℂ), (p * (B : ℂ) - root) * (1 / 2 : ℂ)])).flatten).map
        (fun s => s2z s Ts)
  | .BANDSTOP =>
    let B := whp - wl
    let W0sq := whp * wl
    (((prototypePoles order).map (fun p =>
      let root := complexSqrt (((B : ℝ) : ℂ) * ((B : ℝ) : ℂ) - 4 * (-p) * ((W0sq : ℝ) : ℂ))
      [(((B : ℝ) : ℂ) + root) / (2 * p), (((B : ℝ) : ℂ) - root) / (2 * p)])).flatten).map
        (fun s => s2z s Ts)

/-- The z-domain zeros of `filter::butterworth` (the second `switch (Type)`). -/
noncomputable def butterworthZZeros (order : ℕ) (ty : FilterType) (wl whp Ts : ℝ) : List ℂ :=
  let n := getNumCoefficients order ty
  match ty with
  | .LOWPASS => List.replicate (n - 1) (-1)
  | .HIGHPASS => List.replicate (n - 1) 1
  | .BANDPASS => (List.range (n - 1)).map (fun i => if i % 2 = 0 then 1 else -1)
  | .BANDSTOP =>
    let omega0 := Real.sqrt (wl * whp) * Ts
    (List.range (n - 1)).map (fun i =>
      if i % 2 = 0 then ⟨Real.cos omega0, Real.sin omega0⟩
      else ⟨Real.cos omega0, -Real.sin omega0⟩)

/-- The gain-normalization reference frequency of `filter::butterworth`
(the third `switch (Type)`): DC for LOWPASS/BANDSTOP, Nyquist for HIGHPASS,
the center frequency for BANDPASS. -/
noncomputable def butterworthRef (ty : FilterType) (wl whp Ts : ℝ) : ℝ :=
  match ty with
  | .LOWPASS => 0
  | .HIGHPASS => Real.pi / Ts
  | .BANDPASS => Real.sqrt (wl * whp)
  | .BANDSTOP => 0

/-- The `Coefficients` struct of `discrete_filter.hpp`, with the two arrays as
lists (index 0 first). -/
structure Coefficients where
  naturalResponseCoefficients : List ℝ
  forcedResponseCoefficients : List ℝ

/-- Embeds `filter::butterworth`: pre-warp the edges, build z-poles and z-zeros,
expand both into polynomial coefficients, scale the numerator so the response
magnitude at the type-specific reference frequency is 1, and store both arrays
in reversed order (index 0 = highest-order term). -/
noncomputable def butterworth (order : ℕ) (ty : FilterType) (wc Ts wh : ℝ) : Coefficients :=
  let wl := 2 / Ts * Real.tan (wc * (Ts / 2))
  let whp := 2 / Ts * Real.tan (wh * (Ts / 2))
  let b := stripReal (expandPolynomial (butterworthZZeros order ty wl whp Ts))
  let a := stripReal (expandPolynomial (butterworthZPoles order ty wl whp Ts))
  let mag := complexAbs (evaluateFrequencyResponse b a (butterworthRef ty wl whp Ts) Ts)
  let scale := 1 / mag
  { naturalResponseCoefficients := a.reverse,
    forcedResponseCoefficients := (b.map (fun c => c * scale)).reverse }

end filter

namespace DiscreteFilter

/-- The state of a `DiscreteFilter<SIZE>` instance: the two coefficient arrays
and the two history shift registers, all of length SIZE. -/
structure State where
  naturalResponseCoefficients : List ℝ
  forcedResponseCoefficients : List ℝ
  naturalResponse : List ℝ
  forcedResponse : List ℝ

/-- The shift loop `for (i = SIZE-1; i > 0; i--) h[i] = h[i-1];` followed by
`h[0] = x`: prepend and drop the last entry. -/
noncomputable def shiftIn (x : ℝ) (l : List ℝ) : List ℝ :=
  x :: l.dropLast

/-- An accumulation loop `for i: sum += a[i] * b[i]` over two arrays. -/
noncomputable def dotSum (a b : List ℝ) : ℝ :=
  (List.zipWith (fun x y => x * y) a b).sum

/-- Embeds `DiscreteFilter::filterData`: shift the input history, insert the sample,
take the weighted input sum, subtract the weighted sum of prior outputs against
`naturalResponseCoefficients[1..]`, divide by `naturalResponseCoefficients[0]`,
shift the output history and return the new output. -/
noncomputable def filterData (f : State) (dat : ℝ) : State × ℝ :=
  let forced := shiftIn dat f.forcedResponse
  let sum := (dotSum f.forcedResponseCoefficients forced
      - dotSum (f.naturalResponseCoefficients.drop 1) f.naturalResponse)
      / f.naturalResponseCoefficients.headI
  ({ f with forcedResponse := forced, naturalResponse := shiftIn sum f.naturalResponse },
    sum)

/-- Embeds `DiscreteFilter::reset`: fill both history arrays with zero, keeping the
coefficients. -/
noncomputable def reset (f : State) : State :=
  { f with naturalResponse := List.replicate f.naturalResponse.length 0,
           forcedResponse := List.replicate f.forcedResponse.length 0 }

/-- Runs `n` successive `filterData(0)` calls. -/
noncomputable def applyZeros (f : State) : ℕ → State
  | 0 => f
  | n + 1 => (filterData (applyZeros f n) 0).1

end DiscreteFilter

namespace AS5048A

/-! ## Lemmas about the unwrapper step -/

theorem step_prevRaw (s : EncoderState) (rawIn : ℕ) (err : Bool) :
    (getRotationUnwrappedStep s rawIn err).1.prevRaw = substRaw s.prevRaw rawIn err := rfl

theorem step_revCount (s : EncoderState) (rawIn : ℕ) (err : Bool) :
    (getRotationUnwrappedStep s rawIn err).1.revCount = stepRevCount s rawIn err := rfl

theorem step_initialized (s : EncoderState) (rawIn : ℕ) (err : Bool) :
    (getRotationUnwrappedStep s rawIn err).1.prevRawinitialized = true := rfl

theorem step_position (s : EncoderState) (rawIn : ℕ) (err : Bool) :
    (getRotationUnwrappedStep s rawIn err).1.position = s.position := rfl

/-- Every `getRotationUnwrapped` return value is the unwrapped output of the
state the call leaves behind. -/
theorem step_snd (s : EncoderState) (rawIn : ℕ) (err : Bool) :
    (getRotationUnwrappedStep s rawIn err).2
      = unwrappedOf (getRotationUnwrappedStep s rawIn err).1 := rfl

/-- On an initialized state the wraparound detection compares the substituted
raw reading against the stored `prevRaw`. -/
theorem step_revCount_of_init (s : EncoderState) (rawIn : ℕ) (err : Bool)
    (h : s.prevRawinitialized = true) :
    (getRotationUnwrappedStep s rawIn err).1.revCount =
      wrapAdjust (toInt16 ((substRaw s.prevRaw rawIn err : ℤ) - (s.prevRaw : ℤ)))
        s.revCount := by
  rw [step_revCount]
  unfold stepRevCount
  rw [h]
  simp

/-- A raw reading of 0 is always substituted by `prevRaw`. -/
theorem substRaw_zero (p : ℕ) (err : Bool) : substRaw p 0 err = p := by
  unfold substRaw
  cases err <;> simp

/-- A valid (nonzero, in-range) raw reading on an error-free exchange is kept. -/
theorem substRaw_valid (p rawIn : ℕ) (h1 : rawIn % 65536 ≠ 0)
    (h2 : rawIn % 65536 < FULL_SCALE) : substRaw p rawIn false = rawIn % 65536 := by
  unfold substRaw
  simp [h1, Nat.not_le.mpr h2]

theorem toInt16_self (x : ℤ) (h1 : -32768 ≤ x) (h2 : x < 32768) : toInt16 x = x := by
  unfold toInt16
  omega

theorem wrapAdjust_sub_le_one (d r : ℤ) : (wrapAdjust d r - r).natAbs ≤ 1 := by
  unfold wrapAdjust
  split
  · omega
  · split <;> omega

theorem wrapAdjust_zero_delta (r : ℤ) : wrapAdjust 0 r = r := by
  unfold wrapAdjust
  norm_num [HALF_SCALE]

/-! ## Claim theorems: protocol driver and unwrapper -/

/-- C1 (code bug evaluation): the SPI response word `0xC000 = 49152` has its
error-indicator bit (bit 14) set and a *valid* parity bit, so the spec
requires `errorFlag = true`; but `AS5048A::read` masks the response with
`0x01 >> 14`, which is `0`, and leaves `errorFlag = false`. -/
theorem read_ignores_error_indicator_bit :
    specResponseInvalid 49152 ∧ spiCheckParity 49152 = 1 ∧ readErrorFlag 49152 = false := by
  decide

/-- C3: from any initialized unwrapper state, processing the consecutive valid
raw samples 16000 then 200 increments `revCount` by exactly 1, and processing
200 then 16000 decrements it by exactly 1. -/
theorem wraparound_adjusts_revCount (s : EncoderState) (h : s.prevRawinitialized = true) :
    (getRotationUnwrappedStep (getRotationUnwrappedStep s 16000 false).1 200 false).1.revCount
      = (getRotationUnwrappedStep s 16000 false).1.revCount + 1 ∧
    (getRotationUnwrappedStep (getRotationUnwrappedStep s 200 false).1 16000 false).1.revCount
      = (getRotationUnwrappedStep s 200 false).1.revCount - 1 := by
  have hA : ∀ p : ℕ, substRaw p 16000 false = 16000 := fun p => by
    rw [substRaw_valid p 16000 (by norm_num) (by norm_num [FULL_SCALE])]
  have hB : ∀ p : ℕ, substRaw p 200 false = 200 := fun p => by
    rw [substRaw_valid p 200 (by norm_num) (by norm_num [FULL_SCALE])]
  constructor
  · have key := step_revCount_of_init (getRotationUnwrappedStep s 16000 false).1 200 false
      (step_initialized s 16000 false)
    rw [step_prevRaw, hA, hB] at key
    rw [key]
    rw [show ((200 : ℕ) : ℤ) - ((16000 : ℕ) : ℤ) = -15800 by norm_num]
    rw [show toInt16 (-15800) = -15800 by unfold toInt16; norm_num]
    unfold wrapAdjust
    rw [if_neg (show ¬((HALF_SCALE : ℕ) : ℤ) < -15800 by norm_num [HALF_SCALE])]
    rw [if_pos (show (-15800 : ℤ) < -((HALF_SCALE : ℕ) : ℤ) by norm_num [HALF_SCALE])]
  · have key := step_revCount_of_init (getRotationUnwrappedStep s 200 false).1 16000 false
      (step_initialized s 200 false)
    rw [step_prevRaw, hB, hA] at key
    rw [key]
    rw [show ((16000 : ℕ) : ℤ) - ((200 : ℕ) : ℤ) = 15800 by norm_num]
    rw [show toInt16 15800 = 15800 by unfold toInt16; norm_num]
    unfold wrapAdjust
    rw [if_pos (show ((HALF_SCALE : ℕ) : ℤ) < 15800 by norm_num [HALF_SCALE])]

/-- C3 witness at a concrete initialized state. -/
theorem wraparound_adjusts_revCount_witness :
    (⟨false, 0, 15000, true, 5⟩ : EncoderState).prevRawinitialized = true ∧
    ((getRotationUnwrappedStep
        (getRotationUnwrappedStep ⟨false, 0, 15000, true, 5⟩ 16000 false).1 200 false).1.revCount
      = (getRotationUnwrappedStep ⟨false, 0, 15000, true, 5⟩ 16000 false).1.revCount + 1 ∧
    (getRotationUnwrappedStep
        (getRotationUnwrappedStep ⟨false, 0, 15000, true, 5⟩ 200 false).1 16000 false).1.revCount
      = (getRotationUnwrappedStep ⟨false, 0, 15000, true, 5⟩ 200 false).1.revCount - 1) :=
  ⟨rfl, wraparound_adjusts_revCount ⟨false, 0, 15000, true, 5⟩ rfl⟩

/-- C4: with zero offset 0, a first-ever valid sample of 8192 sets
`revCount = -1` and the call returns `-1 * 16384 + 8192 - 0 - 8192 = -16384`. -/
theorem first_sample_midscale (s : EncoderState) (h1 : s.prevRawinitialized = false)
    (h2 : s.position = 0) :
    (getRotationUnwrappedStep s 8192 false).1.revCount = -1 ∧
    (getRotationUnwrappedStep s 8192 false).2 = -16384 := by
  have hraw : substRaw s.prevRaw 8192 false = 8192 :=
    substRaw_valid _ 8192 (by norm_num) (by norm_num [FULL_SCALE])
  have hrev : (getRotationUnwrappedStep s 8192 false).1.revCount = -1 := by
    rw [step_revCount]
    unfold stepRevCount
    rw [hraw, h1]
    simp only [Bool.false_eq_true, if_false, sub_self]
    rw [toInt16_self 0 (by norm_num) (by norm_num), wrapAdjust_zero_delta]
  refine ⟨hrev, ?_⟩
  show stepRevCount s 8192 false * (FULL_SCALE : ℕ) + (substRaw s.prevRaw 8192 false : ℤ)
      - (s.position : ℤ) - (HALF_SCALE : ℕ) = -16384
  rw [hraw, h2, show stepRevCount s 8192 false = -1 from hrev]
  norm_num [FULL_SCALE, HALF_SCALE]

/-- C4 witness at a concrete uninitialized state. -/
theorem first_sample_midscale_witness :
    ((⟨false, 0, 0, false, 0⟩ : EncoderState).prevRawinitialized = false ∧
      (⟨false, 0, 0, false, 0⟩ : EncoderState).position = 0) ∧
    ((getRotationUnwrappedStep ⟨false, 0, 0, false, 0⟩ 8192 false).1.revCount = -1 ∧
      (getRotationUnwrappedStep ⟨false, 0, 0, false, 0⟩ 8192 false).2 = -16384) :=
  ⟨⟨rfl, rfl⟩, first_sample_midscale ⟨false, 0, 0, false, 0⟩ rfl rfl⟩

/-- C5: from any initialized state, a sample whose raw reading is 0 is replaced
by `prevRaw`: `prevRaw` and `revCount` are unchanged (the state is as if the
sample had been omitted) and the returned output equals the unwrapped output
of the unchanged state — which is what the previous call returned, since every
call returns the unwrapped output of the state it leaves behind. -/
theorem zero_raw_glitch_is_transparent (s : EncoderState) (err : Bool)
    (h : s.prevRawinitialized = true) :
    (getRotationUnwrappedStep s 0 err).1.prevRaw = s.prevRaw ∧
    (getRotationUnwrappedStep s 0 err).1.revCount = s.revCount ∧
    (getRotationUnwrappedStep s 0 err).2 = unwrappedOf s ∧
    ∀ rawIn err₂, (getRotationUnwrappedStep s rawIn err₂).2
        = unwrappedOf (getRotationUnwrappedStep s rawIn err₂).1 := by
  have hraw : substRaw s.prevRaw 0 err = s.prevRaw := substRaw_zero _ _
  have hrev : (getRotationUnwrappedStep s 0 err).1.revCount = s.revCount := by
    rw [step_revCount]
    unfold stepRevCount
    rw [hraw, h]
    simp only [eq_self_iff_true, if_true, sub_self]
    rw [toInt16_self 0 (by norm_num) (by norm_num), wrapAdjust_zero_delta]
  refine ⟨by rw [step_prevRaw, hraw], hrev, ?_, fun rawIn err₂ => step_snd s rawIn err₂⟩
  rw [step_snd]
  unfold unwrappedOf
  rw [step_revCount, step_prevRaw, step_position, hraw,
    show stepRevCount s 0 err = s.revCount from hrev]

/-- C5 witness at a concrete initialized state. -/
theorem zero_raw_glitch_is_transparent_witness :
    (⟨false, 3, 1234, true, 7⟩ : EncoderState).prevRawinitialized = true ∧
    ((getRotationUnwrappedStep ⟨false, 3, 1234, true, 7⟩ 0 false).1.prevRaw = 1234 ∧
      (getRotationUnwrappedStep ⟨false, 3, 1234, true, 7⟩ 0 false).1.revCount = 7 ∧
      (getRotationUnwrappedStep ⟨false, 3, 1234, true, 7⟩ 0 false).2
        = unwrappedOf ⟨false, 3, 1234, true, 7⟩) :=
  ⟨rfl, ⟨(zero_raw_glitch_is_transparent ⟨false, 3, 1234, true, 7⟩ false rfl).1,
    (zero_raw_glitch_is_transparent ⟨false, 3, 1234, true, 7⟩ false rfl).2.1,
    (zero_raw_glitch_is_transparent ⟨false, 3, 1234, true, 7⟩ false rfl).2.2.1⟩⟩

/-- C7: on an initialized state every call moves `revCount` by at most 1 in
absolute value; on the very first call it sets `revCount` to `-1`. -/
theorem revCount_moves_at_most_one (s : EncoderState) (rawIn : ℕ) (err : Bool) :
    if s.prevRawinitialized = true
    then ((getRotationUnwrappedStep s rawIn err).1.revCount - s.revCount).natAbs ≤ 1
    else (getRotationUnwrappedStep s rawIn err).1.revCount = -1 := by
  cases hinit : s.prevRawinitialized
  · simp only [Bool.false_eq_true, if_false]
    rw [step_revCount]
    unfold stepRevCount
    rw [hinit]
    simp only [Bool.false_eq_true, if_false, sub_self]
    rw [toInt16_self 0 (by norm_num) (by norm_num), wrapAdjust_zero_delta]
  · simp only [eq_self_iff_true, if_true]
    rw [step_revCount]
    unfold stepRevCount
    rw [hinit]
    simp only [eq_self_iff_true, if_true]
    exact wrapAdjust_sub_le_one _ _

/-! ## Parity algebra -/

theorem xor_div_two (a b : ℕ) : (a ^^^ b) / 2 = a / 2 ^^^ b / 2 := by
  apply Nat.eq_of_testBit_eq
  intro i
  simp only [← Nat.testBit_succ, Nat.testBit_xor]

theorem xor_div_pow (k a b : ℕ) : (a ^^^ b) / 2 ^ k = a / 2 ^ k ^^^ b / 2 ^ k := by
  apply Nat.eq_of_testBit_eq
  intro i
  simp only [← Nat.shiftRight_eq_div_pow, Nat.testBit_shiftRight, Nat.testBit_xor]

theorem xor_mod_pow (k a b : ℕ) : (a ^^^ b) % 2 ^ k = a % 2 ^ k ^^^ b % 2 ^ k := by
  apply Nat.eq_of_testBit_eq
  intro i
  simp only [Nat.testBit_mod_two_pow, Nat.testBit_xor]
  cases hik : (decide (i < k)) <;> simp [hik]

theorem bitCount_succ (k v : ℕ) : bitCount (k + 1) v = v % 2 + bitCount k (v / 2) := rfl

/-- Flipping one of the low `k` bits flips the parity of the low-`k`-bit count. -/
theorem bitCount_flip (k : ℕ) : ∀ i x, i < k →
    bitCount k (x ^^^ 2 ^ i) % 2 = (bitCount k x + 1) % 2 := by
  induction k with
  | zero => intro i x h; omega
  | succ k ih =>
    intro i x h
    cases i with
    | zero =>
      have h1 : (x ^^^ 2 ^ 0) % 2 = (x + 1) % 2 := by
        rw [pow_zero, Nat.xor_mod_two_eq]
      have h2 : (x ^^^ 2 ^ 0) / 2 = x / 2 := by
        rw [pow_zero, xor_div_two]
        norm_num
      rw [bitCount_succ, bitCount_succ, h1, h2]
      omega
    | succ j =>
      have h1 : (x ^^^ 2 ^ (j + 1)) % 2 = x % 2 := by
        rw [Nat.xor_mod_two_eq]
        have h2j : 2 ^ (j + 1) % 2 = 0 := by
          rw [pow_succ]
          exact Nat.mul_mod_left _ 2
        omega
      have h2 : (x ^^^ 2 ^ (j + 1)) / 2 = x / 2 ^^^ 2 ^ j := by
        rw [xor_div_two]
        congr 1
        rw [pow_succ, Nat.mul_div_cancel _ (by norm_num : 0 < 2)]
      have ihj := ih j (x / 2) (by omega)
      rw [bitCount_succ, bitCount_succ, h1, h2]
      omega

/-- The function `spiCheckParity` returns 1 exactly when bit 15 matches the parity of the
low 15 bits. -/
theorem spiCheckParity_eq_one_iff (w : ℕ) (h : w < 65536) :
    spiCheckParity w = 1 ↔ w / 32768 % 2 = bitCount 16 (w % 32768) % 2 := by
  by_cases hc : w / 32768 % 2 = bitCount 16 (w % 32768) % 2
  · simp [spiCheckParity, Nat.mod_eq_of_lt h, hc]
  · simp [spiCheckParity, Nat.mod_eq_of_lt h, hc]

/-- C6: setting bit 15 of any word to the computed even parity of its low 15
bits yields a word `spiCheckParity` accepts; and flipping any single bit of a
16-bit parity-valid word makes `spiCheckParity` reject it. -/
theorem parity_roundtrip_and_single_bit_detection :
    (∀ v : ℕ, spiCheckParity (v % 32768 + spiCalcEvenParity (v % 32768) * 32768) = 1) ∧
    (∀ w i : ℕ, w < 65536 → i < 16 → spiCheckParity w = 1 →
      spiCheckParity (w ^^^ 2 ^ i) = 0) := by
  constructor
  · intro v
    have hplt : spiCalcEvenParity (v % 32768) < 2 := by
      unfold spiCalcEvenParity
      omega
    have hlowlt : v % 32768 < 32768 := Nat.mod_lt _ (by norm_num)
    have hw : v % 32768 + spiCalcEvenParity (v % 32768) * 32768 < 65536 := by omega
    rw [spiCheckParity_eq_one_iff _ hw]
    have hdiv : (v % 32768 + spiCalcEvenParity (v % 32768) * 32768) / 32768
        = spiCalcEvenParity (v % 32768) := by omega
    have hmod : (v % 32768 + spiCalcEvenParity (v % 32768) * 32768) % 32768
        = v % 32768 := by omega
    rw [hdiv, hmod]
    unfold spiCalcEvenParity
    rw [Nat.mod_eq_of_lt (by omega : v % 32768 < 65536)]
    omega
  · intro w i hw hi hvalid
    have h2i : (2 : ℕ) ^ i < 65536 := by
      calc (2 : ℕ) ^ i < 2 ^ 16 := Nat.pow_lt_pow_right (by norm_num) hi
      _ = 65536 := by norm_num
    have hw' : w ^^^ 2 ^ i < 65536 := by
      have := Nat.xor_lt_two_pow (n := 16) (by norm_num [hw] : w < 2 ^ 16)
        (by norm_num [h2i] : 2 ^ i < 2 ^ 16)
      omega
    rw [spiCheckParity_eq_one_iff w hw] at hvalid
    have hne : ¬ ((w ^^^ 2 ^ i) / 32768 % 2
        = bitCount 16 ((w ^^^ 2 ^ i) % 32768) % 2) := by
      rcases Nat.lt_or_ge i 15 with hi15 | hi15
      · have hmod : (w ^^^ 2 ^ i) % 32768 = w % 32768 ^^^ 2 ^ i := by
          have hmp := xor_mod_pow 15 w (2 ^ i)
          have h2im : (2 : ℕ) ^ i % 2 ^ 15 = 2 ^ i :=
            Nat.mod_eq_of_lt (Nat.pow_lt_pow_right (by norm_num) hi15)
          rw [show (32768 : ℕ) = 2 ^ 15 by norm_num, hmp, h2im]
        have hdiv : (w ^^^ 2 ^ i) / 32768 = w / 32768 := by
          have hdp := xor_div_pow 15 w (2 ^ i)
          have h2id : (2 : ℕ) ^ i / 2 ^ 15 = 0 :=
            Nat.div_eq_of_lt (Nat.pow_lt_pow_right (by norm_num) hi15)
          rw [show (32768 : ℕ) = 2 ^ 15 by norm_num, hdp, h2id, Nat.xor_zero]
        have hflip := bitCount_flip 16 i (w % 32768) (by omega)
        rw [hmod, hdiv, hflip]
        omega
      · have hieq : i = 15 := by omega
        subst hieq
        have hmod : (w ^^^ 2 ^ 15) % 32768 = w % 32768 := by
          have hmp := xor_mod_pow 15 w (2 ^ 15)
          rw [show (32768 : ℕ) = 2 ^ 15 by norm_num, hmp, Nat.mod_self, Nat.xor_zero]
        have hdiv : (w ^^^ 2 ^ 15) / 32768 = w / 32768 ^^^ 1 := by
          have hdp := xor_div_pow 15 w (2 ^ 15)
          rw [show (32768 : ℕ) = 2 ^ 15 by norm_num, hdp,
            Nat.div_self (by norm_num : 0 < (2 : ℕ) ^ 15)]
        rw [hmod, hdiv, Nat.xor_mod_two_eq]
        omega
    unfold spiCheckParity
    simp only [Nat.mod_eq_of_lt hw']
    rw [if_neg hne]

/-- C6 witness: the 15-bit value 5 round-trips to a parity-valid word, and
flipping bit 0 of the parity-valid word `0x8001` invalidates it. -/
theorem parity_roundtrip_and_single_bit_detection_witness :
    spiCheckParity (5 % 32768 + spiCalcEvenParity (5 % 32768) * 32768) = 1 ∧
    ((32769 : ℕ) < 65536 ∧ (0 : ℕ) < 16 ∧ spiCheckParity 32769 = 1 ∧
      spiCheckParity (32769 ^^^ 2 ^ 0) = 0) :=
  ⟨parity_roundtrip_and_single_bit_detection.1 5,
    ⟨by norm_num, by norm_num, by decide,
      parity_roundtrip_and_single_bit_detection.2 32769 0 (by norm_num) (by norm_num)
        (by decide)⟩⟩

/-- C10: `setZeroPosition(p)` stores `p % 0x3FFF = p % 16383` (not
`p % 16384`): the stored offset is below 16384 but can never equal 16383,
and `setZeroPosition(16383)` stores 0. -/
theorem zero_position_stored_mod_16383 (s : EncoderState) (p : ℕ) (h : p < 65536) :
    getZeroPosition (setZeroPosition s p) = p % 16383 ∧
    getZeroPosition (setZeroPosition s p) < 16384 ∧
    getZeroPosition (setZeroPosition s p) ≠ 16383 ∧
    getZeroPosition (setZeroPosition s 16383) = 0 := by
  have hp : getZeroPosition (setZeroPosition s p) = (p % 65536) % 16383 := rfl
  have h16 : getZeroPosition (setZeroPosition s 16383) = 16383 % 65536 % 16383 := rfl
  rw [hp, h16, Nat.mod_eq_of_lt h]
  refine ⟨rfl, by omega, by omega, by norm_num⟩

/-- C10 witness at `p = 16383`. -/
theorem zero_position_stored_mod_16383_witness :
    (16383 : ℕ) < 65536 ∧
    (getZeroPosition (setZeroPosition ⟨false, 0, 0, false, 0⟩ 16383) = 16383 % 16383 ∧
      getZeroPosition (setZeroPosition ⟨false, 0, 0, false, 0⟩ 16383) < 16384 ∧
      getZeroPosition (setZeroPosition ⟨false, 0, 0, false, 0⟩ 16383) ≠ 16383 ∧
      getZeroPosition (setZeroPosition ⟨false, 0, 0, false, 0⟩ 16383) = 0) :=
  ⟨by norm_num, zero_position_stored_mod_16383 ⟨false, 0, 0, false, 0⟩ 16383 (by norm_num)⟩

end AS5048A

namespace DiscreteFilter

/-! ## Lemmas about the filter runtime -/

theorem filterData_snd (f : State) (dat : ℝ) :
    (filterData f dat).2 = (dotSum f.forcedResponseCoefficients (shiftIn dat f.forcedResponse)
      - dotSum (f.naturalResponseCoefficients.drop 1) f.naturalResponse)
      / f.naturalResponseCoefficients.headI := rfl

theorem filterData_naturalResponse (f : State) (dat : ℝ) :
    (filterData f dat).1.naturalResponse = shiftIn ((filterData f dat).2) f.naturalResponse := rfl

theorem filterData_forcedResponse (f : State) (dat : ℝ) :
    (filterData f dat).1.forcedResponse = shiftIn dat f.forcedResponse := rfl

theorem filterData_coeffs (f : State) (dat : ℝ) :
    (filterData f dat).1.naturalResponseCoefficients = f.naturalResponseCoefficients ∧
    (filterData f dat).1.forcedResponseCoefficients = f.forcedResponseCoefficients :=
  ⟨rfl, rfl⟩

theorem dotSum_zero_right (a : List ℝ) : ∀ b, (∀ x ∈ b, x = 0) → dotSum a b = 0 := by
  induction a with
  | nil => intro b _; simp [dotSum]
  | cons x xs ih =>
    intro b hb
    cases b with
    | nil => simp [dotSum]
    | cons y ys =>
      have hy : y = 0 := hb y (by simp)
      have hys : ∀ z ∈ ys, z = 0 := fun z hz => hb z (by simp [hz])
      have : dotSum (x :: xs) (y :: ys) = x * y + dotSum xs ys := by
        simp [dotSum]
      rw [this, hy, ih ys hys]
      ring

theorem mem_shiftIn_zero (l : List ℝ) (hl : ∀ x ∈ l, x = 0) :
    ∀ x ∈ shiftIn 0 l, x = 0 := by
  intro x hx
  rcases List.mem_cons.mp hx with h | h
  · exact h
  · exact hl x (List.dropLast_subset l h)

/-- A `filterData(0)` call on all-zero histories outputs 0 and keeps both
histories all-zero. -/
theorem filterData_zero_state (f : State)
    (hn : ∀ x ∈ f.naturalResponse, x = 0) (hf : ∀ x ∈ f.forcedResponse, x = 0) :
    (filterData f 0).2 = 0 ∧
    (∀ x ∈ (filterData f 0).1.naturalResponse, x = 0) ∧
    (∀ x ∈ (filterData f 0).1.forcedResponse, x = 0) := by
  have hforced := mem_shiftIn_zero f.forcedResponse hf
  have hout : (filterData f 0).2 = 0 := by
    rw [filterData_snd, dotSum_zero_right _ _ hforced, dotSum_zero_right _ _ hn]
    simp
  refine ⟨hout, ?_, ?_⟩
  · rw [filterData_naturalResponse, hout]
    exact mem_shiftIn_zero f.naturalResponse hn
  · rw [filterData_forcedResponse]
    exact hforced

theorem applyZeros_zero_state (f : State)
    (hn : ∀ x ∈ f.naturalResponse, x = 0) (hf : ∀ x ∈ f.forcedResponse, x = 0) :
    ∀ n, (∀ x ∈ (applyZeros f n).naturalResponse, x = 0) ∧
      (∀ x ∈ (applyZeros f n).forcedResponse, x = 0) := by
  intro n
  induction n with
  | zero => exact ⟨hn, hf⟩
  | succ n ih =>
    have := filterData_zero_state (applyZeros f n) ih.1 ih.2
    exact ⟨this.2.1, this.2.2⟩

/-- C8: after `reset()`, every `filterData(0)` call of an all-zero input
sequence returns 0 and leaves both history buffers all-zero, for any
coefficient set whose leading natural-response coefficient is nonzero. -/
theorem zero_input_zero_output (f : State)
    (h : f.naturalResponseCoefficients.headI ≠ 0) (n : ℕ) :
    (filterData (applyZeros (reset f) n) 0).2 = 0 ∧
    (∀ x ∈ (applyZeros (reset f) n).naturalResponse, x = 0) ∧
    (∀ x ∈ (applyZeros (reset f) n).forcedResponse, x = 0) := by
  have hn : ∀ x ∈ (reset f).naturalResponse, x = 0 := by
    intro x hx
    exact List.eq_of_mem_replicate hx
  have hf : ∀ x ∈ (reset f).forcedResponse, x = 0 := by
    intro x hx
    exact List.eq_of_mem_replicate hx
  have hz := applyZeros_zero_state (reset f) hn hf n
  exact ⟨(filterData_zero_state _ hz.1 hz.2).1, hz.1, hz.2⟩

/-- C8 witness at a concrete filter state and `n = 2`. -/
theorem zero_input_zero_output_witness :
    ((⟨[1, 2], [3, 4], [5, 6], [7, 8]⟩ : State).naturalResponseCoefficients.headI ≠ 0) ∧
    ((filterData (applyZeros (reset ⟨[1, 2], [3, 4], [5, 6], [7, 8]⟩) 2) 0).2 = 0 ∧
      (∀ x ∈ (applyZeros (reset ⟨[1, 2], [3, 4], [5, 6], [7, 8]⟩) 2).naturalResponse, x = 0) ∧
      (∀ x ∈ (applyZeros (reset ⟨[1, 2], [3, 4], [5, 6], [7, 8]⟩) 2).forcedResponse, x = 0)) :=
  ⟨by norm_num, zero_input_zero_output ⟨[1, 2], [3, 4], [5, 6], [7, 8]⟩ (by norm_num) 2⟩

end DiscreteFilter

namespace filter

/-! ## The expanded polynomials are monic -/

theorem mulLin_concat (front : List ℂ) (z : ℂ) :
    mulLin (front ++ [1]) z
      = List.zipWith (fun a b => a - z * b) (0 :: front) (front ++ [1]) ++ [1] := by
  unfold mulLin
  have h1 : (0 : ℂ) :: (front ++ [1]) = (0 :: front) ++ [1] := by simp
  have h2 : (front ++ [1]) ++ [(0 : ℂ)] = (front ++ [1]) ++ [0] := rfl
  rw [h1, List.zipWith_append _ _ _ _ _ (by simp)]
  simp

theorem foldl_mulLin_concat (zs : List ℂ) :
    ∀ cs : List ℂ, (∃ front, cs = front ++ [1]) →
      ∃ front, zs.foldl mulLin cs = front ++ [1] := by
  induction zs with
  | nil => intro cs h; exact h
  | cons z zs ih =>
    intro cs h
    obtain ⟨front, rfl⟩ := h
    rw [List.foldl_cons]
    exact ih _ ⟨_, mulLin_concat front z⟩

/-- The function `filter::expandPolynomial` always produces a monic polynomial: its last
coefficient (the leading term) is 1. -/
theorem expandPolynomial_concat (zs : List ℂ) :
    ∃ front, expandPolynomial zs = front ++ [1] := by
  unfold expandPolynomial
  exact foldl_mulLin_concat zs [1] ⟨[], rfl⟩

/-- The reversal step of `filter::butterworth` puts the leading (monic) term
of the denominator polynomial at index 0 of `naturalResponseCoefficients`,
and that entry is 1. -/
theorem butterworth_natural_headI (order : ℕ) (ty : FilterType) (wc Ts wh : ℝ) :
    (butterworth order ty wc Ts wh).naturalResponseCoefficients.headI = 1 := by
  unfold butterworth
  obtain ⟨front, hfront⟩ := expandPolynomial_concat
    (butterworthZPoles order ty (2 / Ts * Real.tan (wc * (Ts / 2)))
      (2 / Ts * Real.tan (wh * (Ts / 2))) Ts)
  simp only [hfront]
  unfold stripReal
  simp

end filter

namespace filter

/-! ## Concrete evaluation of the order-1 designs -/

theorem expandPolynomial_single (z : ℂ) : expandPolynomial [z] = [-z, 1] := by
  unfold expandPolynomial
  rw [List.foldl_cons, List.foldl_nil]
  unfold mulLin
  simp

theorem prototypePoles_one : prototypePoles 1 = [(-1 : ℂ)] := by
  unfold prototypePoles
  rw [show List.range 1 = [0] from rfl]
  simp only [List.map_cons, List.map_nil]
  have hθ : Real.pi * (2 * ((0 : ℕ) : ℝ) + 1) / (2 * ((1 : ℕ) : ℝ)) + Real.pi / 2
      = Real.pi := by
    push_cast
    ring
  rw [hθ]
  congr 1
  apply Complex.ext <;> simp

theorem s2z_ofReal (x Ts : ℝ) :
    s2z ((x : ℝ) : ℂ) Ts = (((1 + Ts / 2 * x) / (1 - Ts / 2 * x) : ℝ) : ℂ) := by
  unfold s2z
  push_cast
  ring_nf

theorem complexAbs_ofReal (x : ℝ) : complexAbs ((x : ℝ) : ℂ) = |x| := by
  unfold complexAbs
  simp only [Complex.ofReal_re, Complex.ofReal_im, mul_zero, add_zero]
  rw [show x * x = x ^ 2 by ring]
  exact Real.sqrt_sq_eq_abs x

theorem respPoly_pair (c0 c1 omega : ℝ) :
    respPoly [c0, c1] omega
      = ((c0 * Real.cos (omega * 0) + c1 * Real.cos (omega * 1) : ℝ) : ℂ)
        - Complex.I * ((c0 * Real.sin (omega * 0) + c1 * Real.sin (omega * 1) : ℝ) : ℂ) := by
  unfold respPoly
  simp [List.enum, List.enumFrom]
  ring

theorem respPoly_pair_zero (c0 c1 : ℝ) :
    respPoly [c0, c1] 0 = ((c0 + c1 : ℝ) : ℂ) := by
  rw [respPoly_pair]
  simp

theorem respPoly_pair_pi (c0 c1 : ℝ) :
    respPoly [c0, c1] Real.pi = ((c0 - c1 : ℝ) : ℂ) := by
  rw [respPoly_pair]
  simp [Real.cos_pi, Real.sin_pi]
  ring

end filter

namespace filter

/-- Full evaluation of the order-1 LOWPASS design: with `τ = tan(wc·Ts/2) > 0`
the stored coefficients are `a = [1, -(1-τ)/(1+τ)]` and
`b = [τ/(1+τ), τ/(1+τ)]`. -/
theorem butterworth_one_lowpass (wc Ts wh : ℝ) (hTs : Ts ≠ 0)
    (ht : 0 < Real.tan (wc * (Ts / 2))) :
    butterworth 1 .LOWPASS wc Ts wh =
      { naturalResponseCoefficients :=
          [1, -((1 - Real.tan (wc * (Ts / 2))) / (1 + Real.tan (wc * (Ts / 2))))],
        forcedResponseCoefficients :=
          [Real.tan (wc * (Ts / 2)) / (1 + Real.tan (wc * (Ts / 2))),
           Real.tan (wc * (Ts / 2)) / (1 + Real.tan (wc * (Ts / 2)))] } := by
  unfold butterworth
  dsimp only
  generalize hτ : Real.tan (wc * (Ts / 2)) = τ at ht ⊢
  generalize hυ : Real.tan (wh * (Ts / 2)) = υ
  have h1τ : (0 : ℝ) < 1 + τ := by linarith
  -- the single z-domain pole is the real number p = (1-τ)/(1+τ)
  have hzp : butterworthZPoles 1 .LOWPASS (2 / Ts * τ) (2 / Ts * υ) Ts
      = [(((1 - τ) / (1 + τ) : ℝ) : ℂ)] := by
    unfold butterworthZPoles
    rw [prototypePoles_one]
    simp only [List.map_cons, List.map_nil]
    have hmul : (-1 : ℂ) * ((2 / Ts * τ : ℝ) : ℂ) = ((-(2 / Ts * τ) : ℝ) : ℂ) := by
      push_cast
      ring
    rw [hmul, s2z_ofReal]
    norm_cast
    rw [show Ts / 2 * -(2 / Ts * τ) = -τ by field_simp; ring]
    ring_nf
  have hzz : butterworthZZeros 1 .LOWPASS (2 / Ts * τ) (2 / Ts * υ) Ts = [(-1 : ℂ)] := by
    unfold butterworthZZeros getNumCoefficients FilterType.isBand
    norm_num
  rw [hzp, hzz, expandPolynomial_single, expandPolynomial_single]
  have hb : stripReal [-(-1 : ℂ), 1] = [1, 1] := by
    unfold stripReal
    simp
  have ha : stripReal [-(((1 - τ) / (1 + τ) : ℝ) : ℂ), 1] = [-((1 - τ) / (1 + τ)), 1] := by
    unfold stripReal
    simp only [List.map_cons, List.map_nil, Complex.neg_re, Complex.ofReal_re, Complex.one_re]
  rw [hb, ha]
  have hden : -((1 - τ) / (1 + τ)) + 1 = 2 * τ / (1 + τ) := by
    field_simp
    ring
  have hdenpos : (0 : ℝ) < 2 * τ / (1 + τ) := by positivity
  have hresp : evaluateFrequencyResponse [1, 1] [-((1 - τ) / (1 + τ)), 1]
      (butterworthRef .LOWPASS (2 / Ts * τ) (2 / Ts * υ) Ts) Ts
      = ((2 / (2 * τ / (1 + τ)) : ℝ) : ℂ) := by
    unfold butterworthRef evaluateFrequencyResponse
    rw [zero_mul, respPoly_pair_zero, respPoly_pair_zero, hden]
    rw [show ((1 : ℝ) + 1) = 2 by norm_num]
    rw [← Complex.ofReal_div]
  rw [hresp, complexAbs_ofReal]
  have habs : |2 / (2 * τ / (1 + τ))| = 2 / (2 * τ / (1 + τ)) := by
    rw [abs_of_pos]
    positivity
  rw [habs]
  have hscale : 1 / (2 / (2 * τ / (1 + τ))) = τ / (1 + τ) := by
    field_simp
    ring
  rw [hscale]
  simp only [List.map_cons, List.map_nil, one_mul, List.reverse_cons, List.reverse_nil,
    List.nil_append, List.cons_append]

end filter

namespace filter

/-- Full evaluation of the order-1 HIGHPASS design: with `τ = tan(wc·Ts/2) > 0`
the stored coefficients are `a = [1, -(1-τ)/(1+τ)]` and
`b = [1/(1+τ), -1/(1+τ)]`. -/
theorem butterworth_one_highpass (wc Ts wh : ℝ) (hTs : Ts ≠ 0)
    (ht : 0 < Real.tan (wc * (Ts / 2))) :
    butterworth 1 .HIGHPASS wc Ts wh =
      { naturalResponseCoefficients :=
          [1, -((1 - Real.tan (wc * (Ts / 2))) / (1 + Real.tan (wc * (Ts / 2))))],
        forcedResponseCoefficients :=
          [1 / (1 + Real.tan (wc * (Ts / 2))), -(1 / (1 + Real.tan (wc * (Ts / 2))))] } := by
  unfold butterworth
  dsimp only
  generalize hτ : Real.tan (wc * (Ts / 2)) = τ at ht ⊢
  generalize hυ : Real.tan (wh * (Ts / 2)) = υ
  have h1τ : (0 : ℝ) < 1 + τ := by linarith
  have hzp : butterworthZPoles 1 .HIGHPASS (2 / Ts * τ) (2 / Ts * υ) Ts
      = [(((1 - τ) / (1 + τ) : ℝ) : ℂ)] := by
    unfold butterworthZPoles
    rw [prototypePoles_one]
    simp only [List.map_cons, List.map_nil]
    have hdiv : ((2 / Ts * τ : ℝ) : ℂ) / (-1 : ℂ) = ((-(2 / Ts * τ) : ℝ) : ℂ) := by
      push_cast
      ring
    rw [hdiv, s2z_ofReal]
    norm_cast
    rw [show Ts / 2 * -(2 / Ts * τ) = -τ by field_simp; ring]
    ring_nf
  have hzz : butterworthZZeros 1 .HIGHPASS (2 / Ts * τ) (2 / Ts * υ) Ts = [(1 : ℂ)] := by
    unfold butterworthZZeros getNumCoefficients FilterType.isBand
    norm_num
  rw [hzp, hzz, expandPolynomial_single, expandPolynomial_single]
  have hb : stripReal [-(1 : ℂ), 1] = [-1, 1] := by
    unfold stripReal
    simp
  have ha : stripReal [-(((1 - τ) / (1 + τ) : ℝ) : ℂ), 1] = [-((1 - τ) / (1 + τ)), 1] := by
    unfold stripReal
    simp only [List.map_cons, List.map_nil, Complex.neg_re, Complex.ofReal_re, Complex.one_re]
  rw [hb, ha]
  have hresp : evaluateFrequencyResponse [-1, 1] [-((1 - τ) / (1 + τ)), 1]
      (butterworthRef .HIGHPASS (2 / Ts * τ) (2 / Ts * υ) Ts) Ts
      = ((1 + τ : ℝ) : ℂ) := by
    unfold butterworthRef evaluateFrequencyResponse
    rw [div_mul_cancel₀ _ hTs]
    rw [respPoly_pair_pi, respPoly_pair_pi]
    rw [show (-1 : ℝ) - 1 = -2 by norm_num]
    rw [show -((1 - τ) / (1 + τ)) - 1 = -2 / (1 + τ) by field_simp; ring]
    rw [← Complex.ofReal_div]
    rw [show (-2 : ℝ) / (-2 / (1 + τ)) = 1 + τ by field_simp]
  rw [hresp, complexAbs_ofReal, abs_of_pos h1τ]
  simp only [List.map_cons, List.map_nil, one_mul, neg_one_mul, List.reverse_cons,
    List.reverse_nil, List.nil_append, List.cons_append]

end filter

namespace filter

/-- C2 counterexample evaluation: for the order-1 LOWPASS Butterworth design
with `wc = π/4`, `Ts = 2` (so `tan(wc·Ts/2) = 1`), the entry
`naturalResponseCoefficients[N-1]` (here index 1 of the 2-entry array) is 0 —
it is the constant term of the monic denominator, not a nonzero `a₀`, and in
particular cannot be the divisor `filterData` uses. -/
theorem butterworth_trailing_natural_coefficient_zero :
    (butterworth 1 .LOWPASS (Real.pi / 4) 2 0).naturalResponseCoefficients.getD 1 0 = 0 ∧
    (butterworth 1 .LOWPASS (Real.pi / 4) 2 0).naturalResponseCoefficients.length
      = getNumCoefficients 1 .LOWPASS := by
  have htan : Real.tan (Real.pi / 4 * (2 / 2)) = 1 := by
    rw [show Real.pi / 4 * (2 / 2) = Real.pi / 4 by ring]
    exact Real.tan_pi_div_four
  have h := butterworth_one_lowpass (Real.pi / 4) 2 0 (by norm_num)
    (by rw [htan]; norm_num)
  rw [htan] at h
  rw [h]
  constructor
  · norm_num [List.getD]
  · norm_num [getNumCoefficients, FilterType.isBand]

/-- C2 (amended): in every Butterworth design the entry
`naturalResponseCoefficients[0]` — the leading `a₀` term after the internal
reversal — equals 1, hence is nonzero, and it (not the entry at index `N-1`)
is the divisor `DiscreteFilter::filterData` uses: with these coefficients the
output equals the undivided weighted sum. -/
theorem butterworth_leading_natural_coefficient_is_divisor
    (order : ℕ) (ty : FilterType) (wc Ts wh : ℝ) :
    (butterworth order ty wc Ts wh).naturalResponseCoefficients.headI = 1 ∧
    (butterworth order ty wc Ts wh).naturalResponseCoefficients.headI ≠ 0 ∧
    ∀ (st : DiscreteFilter.State) (dat : ℝ),
      st.naturalResponseCoefficients
        = (butterworth order ty wc Ts wh).naturalResponseCoefficients →
      (DiscreteFilter.filterData st dat).2
        = DiscreteFilter.dotSum st.forcedResponseCoefficients
            (DiscreteFilter.shiftIn dat st.forcedResponse)
          - DiscreteFilter.dotSum (st.naturalResponseCoefficients.drop 1)
              st.naturalResponse := by
  refine ⟨butterworth_natural_headI order ty wc Ts wh, ?_, ?_⟩
  · rw [butterworth_natural_headI]
    norm_num
  · intro st dat hst
    rw [DiscreteFilter.filterData_snd, hst, butterworth_natural_headI, div_one]

/-- C2 witness at the order-0 LOWPASS design and a concrete runtime state. -/
theorem butterworth_leading_natural_coefficient_is_divisor_witness :
    (butterworth 0 .LOWPASS 1 1 0).naturalResponseCoefficients.headI = 1 ∧
    ((⟨(butterworth 0 .LOWPASS 1 1 0).naturalResponseCoefficients, [2], [3], [4]⟩ :
        DiscreteFilter.State).naturalResponseCoefficients
      = (butterworth 0 .LOWPASS 1 1 0).naturalResponseCoefficients ∧
    (DiscreteFilter.filterData
        ⟨(butterworth 0 .LOWPASS 1 1 0).naturalResponseCoefficients, [2], [3], [4]⟩ 5).2
      = DiscreteFilter.dotSum [2] (DiscreteFilter.shiftIn 5 [4])
        - DiscreteFilter.dotSum
            ((butterworth 0 .LOWPASS 1 1 0).naturalResponseCoefficients.drop 1) [3]) :=
  ⟨(butterworth_leading_natural_coefficient_is_divisor 0 .LOWPASS 1 1 0).1,
    rfl,
    (butterworth_leading_natural_coefficient_is_divisor 0 .LOWPASS 1 1 0).2.2
      ⟨(butterworth 0 .LOWPASS 1 1 0).naturalResponseCoefficients, [2], [3], [4]⟩ 5 rfl⟩

/-- C9: for the order-1 LOWPASS design with `wc = 2π·10`, `Ts = 1/1000`, the
magnitude of the discrete frequency response of the produced coefficients at
`ω = 0` is exactly 1; for the order-1 HIGHPASS design with the same
parameters, the magnitude at the Nyquist frequency `π/Ts` is exactly 1. -/
theorem butterworth_gain_normalized_at_reference :
    complexAbs (evaluateFrequencyResponse
      (butterworth 1 .LOWPASS (2 * Real.pi * 10) (1 / 1000) 0).forcedResponseCoefficients
      (butterworth 1 .LOWPASS (2 * Real.pi * 10) (1 / 1000) 0).naturalResponseCoefficients
      0 (1 / 1000)) = 1 ∧
    complexAbs (evaluateFrequencyResponse
      (butterworth 1 .HIGHPASS (2 * Real.pi * 10) (1 / 1000) 0).forcedResponseCoefficients
      (butterworth 1 .HIGHPASS (2 * Real.pi * 10) (1 / 1000) 0).naturalResponseCoefficients
      (Real.pi / (1 / 1000)) (1 / 1000)) = 1 := by
  have htpos : 0 < Real.tan (2 * Real.pi * 10 * (1 / 1000 / 2)) := by
    rw [show 2 * Real.pi * 10 * (1 / 1000 / 2) = Real.pi / 100 by ring]
    apply Real.tan_pos_of_pos_of_lt_pi_div_two
    · positivity
    · apply div_lt_div_of_pos_left Real.pi_pos (by norm_num) (by norm_num)
  have hlp := butterworth_one_lowpass (2 * Real.pi * 10) (1 / 1000) 0 (by norm_num) htpos
  have hhp := butterworth_one_highpass (2 * Real.pi * 10) (1 / 1000) 0 (by norm_num) htpos
  constructor
  · rw [hlp]
    generalize hτ : Real.tan (2 * Real.pi * 10 * (1 / 1000 / 2)) = τ at htpos ⊢
    have h1τ : (0 : ℝ) < 1 + τ := by linarith
    unfold evaluateFrequencyResponse
    rw [zero_mul, respPoly_pair_zero, respPoly_pair_zero]
    rw [show τ / (1 + τ) + τ / (1 + τ) = 2 * τ / (1 + τ) by ring]
    rw [show (1 : ℝ) + -((1 - τ) / (1 + τ)) = 2 * τ / (1 + τ) by field_simp; ring]
    rw [← Complex.ofReal_div,
      div_self (by positivity : 2 * τ / (1 + τ) ≠ 0)]
    rw [complexAbs_ofReal, abs_one]
  · rw [hhp]
    generalize hτ : Real.tan (2 * Real.pi * 10 * (1 / 1000 / 2)) = τ at htpos ⊢
    have h1τ : (0 : ℝ) < 1 + τ := by linarith
    unfold evaluateFrequencyResponse
    rw [div_mul_cancel₀ _ (by norm_num : (1 : ℝ) / 1000 ≠ 0)]
    rw [respPoly_pair_pi, respPoly_pair_pi]
    rw [show 1 / (1 + τ) - -(1 / (1 + τ)) = 2 / (1 + τ) by ring]
    rw [show (1 : ℝ) - -((1 - τ) / (1 + τ)) = 2 / (1 + τ) by field_simp; ring]
    rw [← Complex.ofReal_div,
      div_self (by positivity : 2 / (1 + τ) ≠ 0)]
    rw [complexAbs_ofReal, abs_one]

end filter
